import Mathlib

/-!
# Verification of the expense-tracker aggregation and carryover logic

Shallow embedding of the client-side aggregation code of the expense-tracker
repository: the monthly balance-carryover step of the Dashboard data loader,
the grouping/summation computations of the Monthly / ExpenseTracking /
IncomeTracking pages, and the validation guards of the add/edit forms.

Modelling conventions:
* Money amounts are modelled as exact rationals (`ℚ`).  The TypeScript source
  stores amounts in IEEE-754 doubles; the exact-rational embedding captures the
  algebraic structure of the reductions (`reduce((s, r) => s + r.amount, 0)`).
* Calendar dates are `(year, month, day)` triples ordered lexicographically,
  matching the ISO `YYYY-MM-DD` string comparisons (`gte`/`lt` filters) the
  source issues against the data gateway for zero-padded date strings.
* The data gateway is modelled as an in-memory pair of record lists (`DB`);
  a batch insert appends the rows.  Fallible gateway calls are modelled by
  explicit outcome parameters (`Option Nat` for source find-or-create,
  `Bool` for batch-insert success).
-/

/-- Calendar date, compared lexicographically (= ISO string order). -/
structure Date where
  year : Nat
  month : Nat
  day : Nat
deriving Repr, DecidableEq

/-- Strict date order: lexicographic on (year, month, day); this is exactly
the `lt` comparison the gateway applies to ISO date strings. -/
def Date.ltB (a b : Date) : Bool :=
  decide (a.year < b.year) ||
    (decide (a.year = b.year) &&
      (decide (a.month < b.month) ||
        (decide (a.month = b.month) && decide (a.day < b.day))))

/-- Non-strict date order (`gte` on ISO date strings). -/
def Date.leB (a b : Date) : Bool :=
  Date.ltB a b || decide (a = b)

/-- `startDate` of a period: first day of the month
(the source builds the string YYYY-MM-01). -/
def monthStart (y m : Nat) : Date := ⟨y, m, 1⟩

/-- Month of the period following (y, m):
`const nextMonth = month === 12 ? 1 : month + 1`. -/
def nextMonth (m : Nat) : Nat := if m = 12 then 1 else m + 1

/-- Year of the period following (y, m):
`const nextYear = month === 12 ? year + 1 : year`. -/
def nextYear (y m : Nat) : Nat := if m = 12 then y + 1 else y

/-- Month of the period preceding (y, m):
`const prevMonth = currentMonth === 1 ? 12 : currentMonth - 1`. -/
def prevMonth (m : Nat) : Nat := if m = 1 then 12 else m - 1

/-- Year of the period preceding (y, m):
`const prevYear = currentMonth === 1 ? currentYear - 1 : currentYear`. -/
def prevYear (y m : Nat) : Nat := if m = 1 then y - 1 else y

/-- Date-range filter of the monthly queries:
`.gte("date", startDate).lt("date", endDate)` with
`startDate = monthStart y m` and `endDate = monthStart (nextYear) (nextMonth)`. -/
def inPeriod (y m : Nat) (d : Date) : Bool :=
  Date.leB (monthStart y m) d && Date.ltB d (monthStart (nextYear y m) (nextMonth m))

/-- Income row as consumed by the Dashboard carryover logic
(`select("id, amount, date, account_type, source_id")`, and the `description`
field written by the carryover insert).  The `id`/`user_id` columns play no
role in the computations and are omitted. -/
structure IncomeRec where
  amount : ℚ
  date : Date
  account_type : String
  source_id : Nat
  description : String
deriving Repr, DecidableEq

/-- Expense row as consumed by the Dashboard carryover logic
(`select("id, amount, date, account_type")`). -/
structure ExpenseRec where
  amount : ℚ
  date : Date
  account_type : String
deriving Repr, DecidableEq

/-- The user-scoped slice of the two record collections held by the gateway. -/
structure DB where
  income : List IncomeRec
  expenses : List ExpenseRec
deriving Repr, DecidableEq

/-- Current-period income rows, as fetched by
`.gte("date", startDate).lt("date", endDate)`. -/
def periodIncome (db : DB) (y m : Nat) : List IncomeRec :=
  db.income.filter (fun r => inPeriod y m r.date)

/-- Current-period expense rows (same date filter). -/
def periodExpenses (db : DB) (y m : Nat) : List ExpenseRec :=
  db.expenses.filter (fun r => inPeriod y m r.date)

/-- `records.reduce((sum, r) => sum + f(r), 0)`. -/
def sumQ {ρ : Type} (f : ρ → ℚ) (recs : List ρ) : ℚ :=
  recs.foldl (fun s r => s + f r) 0

/-- Per-account previous-period balance computed inside the carryover loop:
`(prevInc || []).filter(i => i.account_type === acc).reduce((s, i) => s + i.amount, 0)
 - (prevExp || []).filter(e => e.account_type === acc).reduce((s, e) => s + e.amount, 0)`. -/
def balanceFor (inc : List IncomeRec) (exp : List ExpenseRec) (acc : String) : ℚ :=
  sumQ (fun i => i.amount) (inc.filter (fun i => i.account_type = acc)) -
    sumQ (fun e => e.amount) (exp.filter (fun e => e.account_type = acc))

/-- `MONTH_NAMES` constant of the Dashboard. -/
def MONTH_NAMES : List String :=
  ["January", "February", "March", "April", "May", "June",
   "July", "August", "September", "October", "November", "December"]

/-- Description written on a synthesized record:
`Auto-carryover from MONTH_NAMES[prevMonth - 1] prevYear`. -/
def carryDescription (pm py : Nat) : String :=
  "Auto-carryover from " ++ MONTH_NAMES.getD (pm - 1) "" ++ " " ++ toString py

/-- The synthesized carryover income row pushed by the loop body. -/
def mkCarry (bal : ℚ) (startDate : Date) (acc : String) (srcId : Nat)
    (desc : String) : IncomeRec :=
  ⟨bal, startDate, acc, srcId, desc⟩

/-- The `carries` array built by
`accountTypes.forEach(acc => { const bal = ...; if (bal > 0) carries.push({...}) })`:
one pass over the account types in order, pushing a record exactly for the
accounts with a strictly positive previous-period balance. -/
def computeCarries (accountTypes : List String) (prevInc : List IncomeRec)
    (prevExp : List ExpenseRec) (srcId : Nat) (startDate : Date)
    (desc : String) : List IncomeRec :=
  accountTypes.filterMap (fun acc =>
    let bal := balanceFor prevInc prevExp acc
    if 0 < bal then some (mkCarry bal startDate acc srcId desc) else none)

/-- `incomeData.some(inc => inc.source_id === sources?.id)`: does the fetched
period already contain a record tagged with the carryover source? -/
def hasCarryover (incomeData : List IncomeRec) (srcId : Nat) : Bool :=
  incomeData.any (fun inc => inc.source_id = srcId)

/-- The carries the Dashboard would synthesize for period (y, m): previous
period computed by `prevMonth`/`prevYear`, rows dated `startDate`, description
naming the source period. -/
def carriesFor (db : DB) (accountTypes : List String) (y m : Nat)
    (srcId : Nat) : List IncomeRec :=
  computeCarries accountTypes
    (periodIncome db (prevYear y m) (prevMonth m))
    (periodExpenses db (prevYear y m) (prevMonth m))
    srcId (monthStart y m) (carryDescription (prevMonth m) (prevYear y m))

/-- Result of one run of the Dashboard `fetchData` carryover step:
the gateway state afterwards, the income list handed to `setIncome`
(what the page displays), and the batch of synthesized rows inserted. -/
structure CarryoverOutcome where
  db : DB
  displayed : List IncomeRec
  inserted : List IncomeRec
deriving Repr, DecidableEq

/-- One run of the carryover portion of the Dashboard `fetchData`
(src/unnamed/part_006, Dashboard component):

* `src` is the outcome of the "Balance Carryover" source find-or-create:
  `none` models `sources` still null after a failed `createError` insert
  (then `!hasCarryover && sources` is falsy and the step is skipped);
* if the fetched period already has a record with `source_id === sources.id`
  nothing happens;
* otherwise the `carries` batch is computed; `if (carries.length > 0)` it is
  inserted, and only `if (!insertError)` is the income re-fetched and
  re-displayed (`insertOk = false` models a failed batch insert: the gateway
  and the displayed list stay as they were). -/
def evaluateCarryover (db : DB) (accountTypes : List String) (y m : Nat)
    (src : Option Nat) (insertOk : Bool) : CarryoverOutcome :=
  let incomeData := periodIncome db y m
  match src with
  | none => ⟨db, incomeData, []⟩
  | some srcId =>
    if hasCarryover incomeData srcId then ⟨db, incomeData, []⟩
    else
      let cs := carriesFor db accountTypes y m srcId
      if cs.isEmpty then ⟨db, incomeData, []⟩
      else if insertOk then
        let db2 : DB := ⟨db.income ++ cs, db.expenses⟩
        ⟨db2, periodIncome db2 y m, cs⟩
      else ⟨db, incomeData, []⟩

/-! ### Concrete carryover scenarios -/

/-- January 2025 state that already holds a carryover-tagged record
(source id 7). -/
def dbJan : DB :=
  ⟨[⟨100, ⟨2025, 1, 1⟩, "CASH", 7, "Auto-carryover from December 2024"⟩], []⟩

/-- January 2025 history: income 1000 and expenses 400 on account UNION. -/
def dbUnion : DB :=
  ⟨[⟨1000, ⟨2025, 1, 15⟩, "UNION", 5, "salary"⟩],
   [⟨400, ⟨2025, 1, 20⟩, "UNION"⟩]⟩

/-- January 2025 history: expenses 100 and no income on account SBI
(previous-period balance -100). -/
def dbSbi : DB :=
  ⟨[], [⟨100, ⟨2025, 1, 10⟩, "SBI"⟩]⟩

/-! ## Grouping and totals (Monthly / ExpenseTracking / IncomeTracking) -/

/-- Accumulator entry of the grouping reduces:
`{ categoryId, categoryName, total }` / `{ sourceId, sourceName, total }`. -/
structure GroupTotal (κ : Type) where
  key : κ
  name : String
  total : ℚ
deriving Repr, DecidableEq

/-- One step of the reduce callback:
`const existing = acc.find(item => item.id === id);
 if (existing) { existing.total += amount } else { acc.push({id, name, total: amount}) }`
— the first entry with the key is bumped in place, otherwise a new entry is
pushed at the end. -/
def addRec {κ : Type} [DecidableEq κ] (k : κ) (nm : String) (a : ℚ) :
    List (GroupTotal κ) → List (GroupTotal κ)
  | [] => [⟨k, nm, a⟩]
  | g :: gs =>
    if g.key = k then ⟨g.key, g.name, g.total + a⟩ :: gs
    else g :: addRec k nm a gs

/-- `records.reduce((acc, rec) => {...}, [])`: group records by a key,
keeping first-seen order of groups and the name of the first record seen. -/
def computeTotals {ρ κ : Type} [DecidableEq κ] (key : ρ → κ)
    (nm : ρ → String) (amt : ρ → ℚ) (recs : List ρ) : List (GroupTotal κ) :=
  recs.foldl (fun acc r => addRec (key r) (nm r) (amt r) acc) []

/-- `records.reduce((sum, rec) => sum + rec.amount, 0)` — the grand total. -/
def grandTotal {ρ : Type} (amt : ρ → ℚ) (recs : List ρ) : ℚ :=
  sumQ amt recs

/-- Stable insertion into a list already sorted by descending total.  The
source sorts with `arr.sort((a, b) => b.total - a.total)`; JS `Array.sort`
is specified stable, and a stable sort for a total preorder has a unique
output, so this stable insertion sort is a faithful model of it. -/
def insertDesc {α : Type} (total : α → ℚ) (g : α) : List α → List α
  | [] => [g]
  | h :: t => if total h ≤ total g then g :: h :: t else h :: insertDesc total g t

/-- Stable sort by descending total (model of `sort((a, b) => b.total - a.total)`). -/
def sortDesc {α : Type} (total : α → ℚ) : List α → List α
  | [] => []
  | g :: gs => insertDesc total g (sortDesc total gs)

/-- Expense row as consumed by the category/account groupings:
`category_id` is the nullable foreign key, `category_name` the joined
`categories?.name`. -/
structure ExpRow where
  amount : ℚ
  category_id : Option Nat
  category_name : Option String
  account_type : String
deriving Repr, DecidableEq

/-- Income row as consumed by the source grouping of IncomeTracking. -/
structure IncRow where
  amount : ℚ
  source_id : Nat
  source_name : Option String
deriving Repr, DecidableEq

/-- Monthly.tsx `categoryTotals`: key `exp.category_id` (nullable), name
`exp.categories?.name || "Unknown"`, then `sort((a, b) => b.total - a.total)`. -/
def categoryTotalsM (recs : List ExpRow) : List (GroupTotal (Option Nat)) :=
  sortDesc (fun g => g.total)
    (computeTotals (fun r => r.category_id)
      (fun r => r.category_name.getD "Unknown") (fun r => r.amount) recs)

/-- ExpenseTracking.tsx `categoryTotals`: key `exp.category_id || 0` (null
mapped to the synthetic key 0), name `exp.categories?.name || "Uncategorized"`,
then the descending sort. -/
def categoryTotalsET (recs : List ExpRow) : List (GroupTotal Nat) :=
  sortDesc (fun g => g.total)
    (computeTotals (fun r => r.category_id.getD 0)
      (fun r => r.category_name.getD "Uncategorized") (fun r => r.amount) recs)

/-- IncomeTracking `sourceTotals`: key `rec.source_id`, name
`rec.income_sources?.name || "Unknown"`, then the descending sort. -/
def sourceTotals (recs : List IncRow) : List (GroupTotal Nat) :=
  sortDesc (fun g => g.total)
    (computeTotals (fun r => r.source_id)
      (fun r => r.source_name.getD "Unknown") (fun r => r.amount) recs)

/-- Account-total entry `{ accountType, total }`. -/
structure AccountTotal where
  accountType : String
  total : ℚ
deriving Repr, DecidableEq

/-- `accountTotals` of ExpenseTracking / Monthly:
`accountTypes.map(type => ({ accountType: type, total: <sum of records with
that tag> })).filter(acc => acc.total > 0)`, then the descending sort. -/
def accountTotals (types : List String) (recs : List ExpRow) :
    List AccountTotal :=
  sortDesc (fun a => a.total)
    ((types.map (fun t =>
        AccountTotal.mk t
          (sumQ (fun r => r.amount)
            (recs.filter (fun r => r.account_type = t))))).filter
      (fun a => 0 < a.total))

/-! ## Form validation models -/

/-- Characters-level model of the JS `String.prototype.trim`: drop
whitespace from both ends.  (Lean's own `String.trim` is implemented by
well-founded recursion over byte positions and does not reduce in the
kernel; this structural model does, and agrees with it on these inputs.) -/
def trimChars (l : List Char) : List Char :=
  ((l.dropWhile Char.isWhitespace).reverse.dropWhile Char.isWhitespace).reverse

/-- JS `name.trim()`. -/
def strTrim (s : String) : String := ⟨trimChars s.data⟩

/-- JS `name.toLowerCase()` (character-wise lowering, as in the ASCII names
the hooks compare). -/
def strLower (s : String) : String := ⟨s.data.map Char.toLower⟩

/-- Result of an add-category / add-source call: either a validation error
thrown before any gateway call, or the row insert issued to the gateway. -/
inductive AddResult where
  | error (msg : String)
  | inserted (name : String)
deriving Repr, DecidableEq

/-- `addCategory` of the user-scoped `useExpenseCategories` hook
(src/unnamed/part_003): trim, reject empty, reject length over 50, reject a
case-insensitive duplicate among the loaded category names — all before the
gateway insert (`.inserted` marks the insert that is then issued). -/
def addCategory (existing : List String) (name : String) : AddResult :=
  let trimmedName := strTrim name
  if trimmedName = "" then .error "Category name cannot be empty"
  else if 50 < trimmedName.length then
    .error "Category name must be 50 characters or less"
  else if existing.any (fun n => strLower n = strLower trimmedName) then
    .error "Category already exists"
  else .inserted trimmedName

/-- `addSource` of the user-scoped `useIncomeSources` hook (same shape as
`addCategory`, different messages). -/
def addSource (existing : List String) (name : String) : AddResult :=
  let trimmedName := strTrim name
  if trimmedName = "" then .error "Source name cannot be empty"
  else if 50 < trimmedName.length then
    .error "Source name must be 50 characters or less"
  else if existing.any (fun n => strLower n = strLower trimmedName) then
    .error "Source already exists"
  else .inserted trimmedName

/-- AddIncome.tsx `handleSubmit` validation: only presence is checked
(`if (!form.amount || !form.date)`); when it passes, the insert carries
`Number(form.amount)` (supplied here as `num`, the numeric value of the
amount string).  Returns the amount sent to the gateway, if any. -/
def addIncomeSubmit (amount date : String) (num : ℚ) : Option ℚ :=
  if amount = "" ∨ date = "" then none else some num

/-- AddExpense `handleSubmit` validation (src/unnamed/part_008): presence of
amount and date, and a category selection, are checked; the amount value
itself is not. -/
def addExpenseSubmit (amount date category_id newCategory : String)
    (num : ℚ) : Option ℚ :=
  if amount = "" ∨ date = "" then none
  else if category_id = "" ∧ strTrim newCategory = "" then none
  else some num

/-- IncomeTracking `handleSave` guard:
`if (!editingData.source_id || !editingData.amount ||
     Number(editingData.amount) <= 0)` — the update is sent only when a
source is selected, the amount string is non-empty, and its numeric value is
strictly positive. -/
def incomeHandleSaveSends (source_id amount : String) (num : ℚ) : Bool :=
  !(source_id = "" ∨ amount = "" ∨ num ≤ 0 : Bool)

/-- ExpenseTracking `handleSave` guard:
`if (!editingData.item.trim() || !editingData.amount ||
     Number(editingData.amount) <= 0)`. -/
def expenseHandleSaveSends (item amount : String) (num : ℚ) : Bool :=
  !(strTrim item = "" ∨ amount = "" ∨ num ≤ 0 : Bool)

/-! ## Lemmas about the carryover computation -/

/-- The first day of a period lies inside that period's date-range filter. -/
theorem inPeriod_monthStart (y m : Nat) : inPeriod y m (monthStart y m) = true := by
  by_cases h : m = 12 <;>
    simp [inPeriod, monthStart, Date.leB, Date.ltB, nextMonth, nextYear, h]

/-- Every synthesized row carries the reserved source id and the first day of
the current period. -/
theorem computeCarries_mem {A : List String} {inc : List IncomeRec}
    {exp : List ExpenseRec} {s : Nat} {d : Date} {desc : String} {c : IncomeRec}
    (h : c ∈ computeCarries A inc exp s d desc) :
    c.source_id = s ∧ c.date = d := by
  rw [computeCarries, List.mem_filterMap] at h
  obtain ⟨a, _, ha⟩ := h
  by_cases hb : 0 < balanceFor inc exp a
  · simp only [hb, if_pos] at ha
    cases ha
    exact ⟨rfl, rfl⟩
  · simp only [hb, if_neg, not_false_eq_true] at ha
    exact Option.noConfusion ha

/-- Restriction of the synthesized batch to one account type: when that
account's previous-period balance is strictly positive the batch holds one
copy of the carryover row per occurrence of the account in the account-type
list, and nothing otherwise. -/
theorem computeCarries_filter (A : List String) (inc : List IncomeRec)
    (exp : List ExpenseRec) (s : Nat) (d : Date) (desc : String) (acc : String) :
    (computeCarries A inc exp s d desc).filter (fun r => r.account_type = acc) =
      if 0 < balanceFor inc exp acc then
        List.replicate (A.count acc)
          (mkCarry (balanceFor inc exp acc) d acc s desc)
      else [] := by
  simp only [computeCarries]
  induction A with
  | nil =>
    simp only [List.filterMap_nil, List.filter_nil, List.count_nil,
      List.replicate_zero]
    split <;> rfl
  | cons a A ih =>
    rw [List.filterMap_cons]
    by_cases hacc : a = acc
    · subst hacc
      by_cases hb : 0 < balanceFor inc exp a
      · simp only [hb, if_pos]
        rw [List.filter_cons_of_pos (by simp [mkCarry]), ih]
        simp only [hb, if_pos, List.count_cons_self, List.replicate_succ]
      · simp only [hb, if_neg, not_false_eq_true]
        rw [ih]
        simp only [hb, if_neg, not_false_eq_true]
    · by_cases hb : 0 < balanceFor inc exp a
      · simp only [hb, if_pos]
        rw [List.filter_cons_of_neg (by simp [mkCarry, hacc]), ih,
          List.count_cons_of_ne (fun h => hacc h.symm)]
      · simp only [hb, if_neg, not_false_eq_true]
        rw [ih, List.count_cons_of_ne (fun h => hacc h.symm)]

/-- After a successful batch insert the period filter picks up the synthesized
rows, so the existence check fires on the next evaluation. -/
theorem hasCarryover_after_insert (db : DB) (A : List String) (y m s : Nat)
    (hne : carriesFor db A y m s ≠ []) :
    hasCarryover
      (periodIncome ⟨db.income ++ carriesFor db A y m s, db.expenses⟩ y m) s
        = true := by
  obtain ⟨c, cs, hcs⟩ : ∃ c cs, carriesFor db A y m s = c :: cs := by
    cases h : carriesFor db A y m s with
    | nil => exact absurd h hne
    | cons c cs => exact ⟨c, cs, rfl⟩
  have hc : c ∈ carriesFor db A y m s := by rw [hcs]; exact List.mem_cons_self c cs
  have hc2 : c ∈ computeCarries A (periodIncome db (prevYear y m) (prevMonth m))
      (periodExpenses db (prevYear y m) (prevMonth m)) s (monthStart y m)
      (carryDescription (prevMonth m) (prevYear y m)) := hc
  have hprops := computeCarries_mem hc2
  rw [hasCarryover, List.any_eq_true]
  refine ⟨c, ?_, by simp [hprops.1]⟩
  rw [periodIncome, List.mem_filter]
  constructor
  · exact List.mem_append_right _ hc
  · rw [hprops.2]
    exact inPeriod_monthStart y m

/-- C1: Carryover evaluation is idempotent.  If the period's fetched income
records already contain an entry tagged with the reserved "Balance Carryover"
source, evaluating carryover inserts nothing and leaves the gateway state
unchanged; and evaluating twice in succession with no intervening state
change inserts nothing on the second run and keeps the state of the first —
exactly one set of synthesized carryover records, never a duplicate. -/
theorem carryover_idempotent (db : DB) (A : List String) (y m s : Nat) :
    (hasCarryover (periodIncome db y m) s = true →
      evaluateCarryover db A y m (some s) true = ⟨db, periodIncome db y m, []⟩) ∧
    evaluateCarryover (evaluateCarryover db A y m (some s) true).db A y m
        (some s) true =
      ⟨(evaluateCarryover db A y m (some s) true).db,
        periodIncome (evaluateCarryover db A y m (some s) true).db y m, []⟩ := by
  constructor
  · intro h
    simp [evaluateCarryover, h]
  · by_cases h : hasCarryover (periodIncome db y m) s = true
    · simp [evaluateCarryover, h]
    · rw [Bool.not_eq_true] at h
      by_cases hcs : (carriesFor db A y m s).isEmpty = true
      · simp [evaluateCarryover, h, hcs]
      · rw [Bool.not_eq_true] at hcs
        have hne : carriesFor db A y m s ≠ [] := by
          intro e
          rw [e] at hcs
          simp at hcs
        have e1 : evaluateCarryover db A y m (some s) true =
            ⟨⟨db.income ++ carriesFor db A y m s, db.expenses⟩,
              periodIncome ⟨db.income ++ carriesFor db A y m s, db.expenses⟩ y m,
              carriesFor db A y m s⟩ := by
          simp [evaluateCarryover, h, hcs]
        rw [e1]
        simp [evaluateCarryover, hasCarryover_after_insert db A y m s hne]

/-- C2: Carryover correctness.  With the reserved source available, no
existing carryover entry in the current period, and an account type (listed
exactly once) whose immediately-preceding-period balance is strictly
positive, exactly one income record is synthesized for that account: amount =
that balance, date = first day of the current period, account type = that
account, source id = the reserved source, description naming the source
period.  The lookback is one period, with the January edge mapping to the
previous December. -/
theorem carryover_correct (db : DB) (A : List String) (y m s : Nat)
    (acc : String)
    (h1 : hasCarryover (periodIncome db y m) s = false)
    (h2 : A.count acc = 1)
    (h3 : 0 < balanceFor (periodIncome db (prevYear y m) (prevMonth m))
            (periodExpenses db (prevYear y m) (prevMonth m)) acc) :
    (evaluateCarryover db A y m (some s) true).inserted.filter
        (fun r => r.account_type = acc) =
      [mkCarry
        (balanceFor (periodIncome db (prevYear y m) (prevMonth m))
          (periodExpenses db (prevYear y m) (prevMonth m)) acc)
        (monthStart y m) acc s
        (carryDescription (prevMonth m) (prevYear y m))] ∧
    (prevYear y 1 = y - 1 ∧ prevMonth 1 = 12) := by
  have hfilter : (carriesFor db A y m s).filter (fun r => r.account_type = acc) =
      [mkCarry
        (balanceFor (periodIncome db (prevYear y m) (prevMonth m))
          (periodExpenses db (prevYear y m) (prevMonth m)) acc)
        (monthStart y m) acc s
        (carryDescription (prevMonth m) (prevYear y m))] := by
    simp only [carriesFor]
    rw [computeCarries_filter, if_pos h3, h2, List.replicate_one]
  have hne : carriesFor db A y m s ≠ [] := by
    intro e
    rw [e] at hfilter
    exact List.noConfusion hfilter
  have hcs : (carriesFor db A y m s).isEmpty = false := by
    cases hh : (carriesFor db A y m s).isEmpty with
    | false => rfl
    | true => exact absurd (List.isEmpty_iff.mp hh) hne
  have e1 : (evaluateCarryover db A y m (some s) true).inserted =
      carriesFor db A y m s := by
    simp [evaluateCarryover, h1, hcs]
  refine ⟨?_, by simp [prevYear, prevMonth]⟩
  rw [e1, hfilter]

/-- C3: Carryover clipping and per-account independence.  An account type
whose preceding-period balance is zero or negative contributes no synthesized
record of any kind; and the records synthesized for an account depend only on
that account's own previous-period rows — two states that agree on the rows
of the account (however they differ elsewhere) yield the same synthesized
records for it, so a surplus in one account is never netted against a deficit
in another. -/
theorem carryover_clipping_independent (db : DB) (A : List String) (y m : Nat)
    (src : Option Nat) (ok : Bool) (acc : String)
    (h : balanceFor (periodIncome db (prevYear y m) (prevMonth m))
          (periodExpenses db (prevYear y m) (prevMonth m)) acc ≤ 0) :
    (evaluateCarryover db A y m src ok).inserted.filter
        (fun r => r.account_type = acc) = [] ∧
    (∀ (inc1 inc2 : List IncomeRec) (exp1 exp2 : List ExpenseRec)
        (s2 : Nat) (d : Date) (desc : String),
      inc1.filter (fun r => r.account_type = acc) =
          inc2.filter (fun r => r.account_type = acc) →
      exp1.filter (fun r => r.account_type = acc) =
          exp2.filter (fun r => r.account_type = acc) →
      (computeCarries A inc1 exp1 s2 d desc).filter
          (fun r => r.account_type = acc) =
        (computeCarries A inc2 exp2 s2 d desc).filter
          (fun r => r.account_type = acc)) := by
  constructor
  · have hfilter : ∀ s2, (carriesFor db A y m s2).filter
        (fun r => r.account_type = acc) = [] := by
      intro s2
      simp only [carriesFor]
      rw [computeCarries_filter, if_neg (not_lt.mpr h)]
    match src with
    | none => simp [evaluateCarryover]
    | some s =>
      by_cases h1 : hasCarryover (periodIncome db y m) s = true
      · simp [evaluateCarryover, h1]
      · rw [Bool.not_eq_true] at h1
        by_cases hcs : (carriesFor db A y m s).isEmpty = true
        · simp [evaluateCarryover, h1, hcs]
        · rw [Bool.not_eq_true] at hcs
          cases ok with
          | false => simp [evaluateCarryover, h1, hcs]
          | true =>
            have e1 : (evaluateCarryover db A y m (some s) true).inserted =
                carriesFor db A y m s := by
              simp [evaluateCarryover, h1, hcs]
            rw [e1, hfilter]
  · intro inc1 inc2 exp1 exp2 s2 d desc hinc hexp
    have hbal : balanceFor inc1 exp1 acc = balanceFor inc2 exp2 acc := by
      rw [balanceFor, balanceFor, hinc, hexp]
    rw [computeCarries_filter, computeCarries_filter, hbal]

/-- C4: Carryover failure atomicity.  If the find-or-create of the reserved
"Balance Carryover" source fails (`sources` remains null), the carryover step
is skipped entirely: nothing is inserted and the displayed income list is the
plain period fetch.  If the batch insert fails, the gateway state and the
displayed income list are likewise left unchanged — the step silently
degrades with no half-applied refresh, and nothing more happens until the
period is next viewed (the run ends in the untouched state). -/
theorem carryover_failure_atomic (db : DB) (A : List String) (y m s : Nat)
    (ok : Bool) :
    evaluateCarryover db A y m none ok = ⟨db, periodIncome db y m, []⟩ ∧
    evaluateCarryover db A y m (some s) false =
      ⟨db, periodIncome db y m, []⟩ := by
  constructor
  · rfl
  · by_cases h1 : hasCarryover (periodIncome db y m) s = true
    · simp [evaluateCarryover, h1]
    · rw [Bool.not_eq_true] at h1
      by_cases hcs : (carriesFor db A y m s).isEmpty = true
      · simp [evaluateCarryover, h1, hcs]
      · rw [Bool.not_eq_true] at hcs
        simp [evaluateCarryover, h1, hcs]

/-- Witness for carryover_idempotent: with a carryover entry already present
in January 2025, evaluation changes nothing. -/
theorem carryover_idempotent_witness :
    hasCarryover (periodIncome dbJan 2025 1) 7 = true ∧
    evaluateCarryover dbJan ["CASH"] 2025 1 (some 7) true =
      ⟨dbJan, periodIncome dbJan 2025 1, []⟩ :=
  ⟨by decide, (carryover_idempotent dbJan ["CASH"] 2025 1 7).1 (by decide)⟩

/-- Witness for carryover_correct: prior-period income 1000 and expenses 400
on UNION yield exactly one synthesized record of amount 600 tagged UNION,
dated 2025-02-01. -/
theorem carryover_correct_witness :
    hasCarryover (periodIncome dbUnion 2025 2) 7 = false ∧
    (evaluateCarryover dbUnion ["UNION"] 2025 2 (some 7) true).inserted.filter
        (fun r => r.account_type = "UNION") =
      [⟨600, ⟨2025, 2, 1⟩, "UNION", 7, "Auto-carryover from January 2025"⟩] := by
  refine ⟨by decide, ?_⟩
  have h := carryover_correct dbUnion ["UNION"] 2025 2 7 "UNION"
    (by decide) (by decide)
    (by norm_num [balanceFor, sumQ, periodIncome, periodExpenses, dbUnion,
          List.filter, inPeriod, Date.leB, Date.ltB, monthStart, nextMonth,
          nextYear, prevMonth, prevYear])
  rw [h.1]
  norm_num [mkCarry, balanceFor, sumQ, periodIncome, periodExpenses, dbUnion,
    List.filter, inPeriod, Date.leB, Date.ltB, monthStart, nextMonth,
    nextYear, prevMonth, prevYear, carryDescription, MONTH_NAMES]
  decide

/-- Witness for carryover_clipping_independent: a prior-period balance of
-100 on SBI produces no synthesized record for SBI. -/
theorem carryover_clipping_witness :
    balanceFor (periodIncome dbSbi (prevYear 2025 2) (prevMonth 2))
        (periodExpenses dbSbi (prevYear 2025 2) (prevMonth 2)) "SBI" ≤ 0 ∧
    (evaluateCarryover dbSbi ["SBI"] 2025 2 (some 1) true).inserted.filter
        (fun r => r.account_type = "SBI") = [] := by
  have hbal : balanceFor (periodIncome dbSbi (prevYear 2025 2) (prevMonth 2))
      (periodExpenses dbSbi (prevYear 2025 2) (prevMonth 2)) "SBI" ≤ 0 := by
    norm_num [balanceFor, sumQ, periodIncome, periodExpenses, dbSbi,
      List.filter, inPeriod, Date.leB, Date.ltB, monthStart, nextMonth,
      nextYear, prevMonth, prevYear]
  exact ⟨hbal,
    (carryover_clipping_independent dbSbi ["SBI"] 2025 2 (some 1) true "SBI"
      hbal).1⟩

/-! ## Lemmas about summation -/

/-- Folding the running sum from an arbitrary start. -/
theorem foldl_add_eq {ρ : Type} (f : ρ → ℚ) (recs : List ρ) :
    ∀ c : ℚ, recs.foldl (fun s r => s + f r) c = c + sumQ f recs := by
  induction recs with
  | nil => intro c; simp [sumQ]
  | cons r rs ih =>
    intro c
    show rs.foldl _ (c + f r) = c + sumQ f (r :: rs)
    have hrs : sumQ f (r :: rs) = (0 + f r) + sumQ f rs := by
      show rs.foldl _ (0 + f r) = _
      rw [ih]
    rw [ih, hrs]
    ring

/-- Unfolding one record of the running sum. -/
theorem sumQ_cons {ρ : Type} (f : ρ → ℚ) (r : ρ) (rs : List ρ) :
    sumQ f (r :: rs) = f r + sumQ f rs := by
  show rs.foldl _ (0 + f r) = _
  rw [foldl_add_eq]
  ring

/-- The running sum splits over list concatenation. -/
theorem sumQ_append {ρ : Type} (f : ρ → ℚ) (l1 l2 : List ρ) :
    sumQ f (l1 ++ l2) = sumQ f l1 + sumQ f l2 := by
  induction l1 with
  | nil => simp [sumQ]
  | cons r rs ih => rw [List.cons_append, sumQ_cons, ih, sumQ_cons]; ring

/-- The running sum is invariant under permutation. -/
theorem sumQ_perm {ρ : Type} (f : ρ → ℚ) {l1 l2 : List ρ}
    (h : l1.Perm l2) : sumQ f l1 = sumQ f l2 := by
  induction h with
  | nil => rfl
  | cons x _ ih => rw [sumQ_cons, sumQ_cons, ih]
  | swap x y l => rw [sumQ_cons, sumQ_cons, sumQ_cons, sumQ_cons]; ring
  | trans _ _ ih1 ih2 => rw [ih1, ih2]

/-- Pointwise-equal summands give equal sums. -/
theorem sumQ_congr {ρ : Type} {f g : ρ → ℚ} {l : List ρ}
    (h : ∀ r ∈ l, f r = g r) : sumQ f l = sumQ g l := by
  induction l with
  | nil => rfl
  | cons r rs ih =>
    rw [sumQ_cons, sumQ_cons, h r (List.mem_cons_self r rs),
      ih (fun x hx => h x (List.mem_cons_of_mem r hx))]

/-- The running sum is additive in the summand. -/
theorem sumQ_add {ρ : Type} (f g : ρ → ℚ) (l : List ρ) :
    sumQ (fun r => f r + g r) l = sumQ f l + sumQ g l := by
  induction l with
  | nil => simp [sumQ]
  | cons r rs ih => rw [sumQ_cons, sumQ_cons, sumQ_cons, ih]; ring

/-- Summing over a filter is summing the indicator-weighted values. -/
theorem sumQ_filter {ρ : Type} (f : ρ → ℚ) (p : ρ → Prop) [DecidablePred p]
    (l : List ρ) :
    sumQ f (l.filter (fun r => p r)) =
      sumQ (fun r => if p r then f r else 0) l := by
  induction l with
  | nil => rfl
  | cons r rs ih =>
    rw [List.filter_cons]
    by_cases h : p r
    · simp only [h, decide_True, if_true]
      rw [sumQ_cons, sumQ_cons, ih, if_pos h]
    · simp only [h, decide_False, Bool.false_eq_true, if_false]
      rw [ih, sumQ_cons, if_neg h]
      ring

/-- A sum of non-negative values is non-negative. -/
theorem sumQ_nonneg {ρ : Type} {f : ρ → ℚ} {l : List ρ}
    (h : ∀ r ∈ l, 0 ≤ f r) : 0 ≤ sumQ f l := by
  induction l with
  | nil => exact le_refl 0
  | cons r rs ih =>
    rw [sumQ_cons]
    have := h r (List.mem_cons_self r rs)
    have := ih (fun x hx => h x (List.mem_cons_of_mem r hx))
    linarith

/-- Dropping the zero-total entries from a list of non-negative values does
not change the sum (`filter(acc => acc.total > 0)`). -/
theorem sumQ_filter_pos {α : Type} (f : α → ℚ) (l : List α)
    (h : ∀ x ∈ l, 0 ≤ f x) :
    sumQ f (l.filter (fun x => 0 < f x)) = sumQ f l := by
  induction l with
  | nil => rfl
  | cons x xs ih =>
    have hx := h x (List.mem_cons_self x xs)
    have ihx := ih (fun y hy => h y (List.mem_cons_of_mem x hy))
    rw [List.filter_cons, sumQ_cons]
    by_cases hp : 0 < f x
    · simp only [hp, decide_True, if_true]
      rw [sumQ_cons, ihx]
    · have hz : f x = 0 := le_antisymm (not_lt.mp hp) hx
      simp only [hp, decide_False, Bool.false_eq_true, if_false]
      rw [ihx, hz]
      ring

/-! ## Lemmas about the grouping accumulator -/

/-- One reduce step adds the record's amount to the total of the totals. -/
theorem sumQ_addRec {κ : Type} [DecidableEq κ] (k : κ) (nm : String) (a : ℚ)
    (gs : List (GroupTotal κ)) :
    sumQ (fun g => g.total) (addRec k nm a gs) =
      sumQ (fun g => g.total) gs + a := by
  induction gs with
  | nil => rw [addRec, sumQ_cons]; show a + 0 = 0 + a; ring
  | cons g gs ih =>
    rw [addRec]
    by_cases h : g.key = k
    · rw [if_pos h, sumQ_cons, sumQ_cons]
      show g.total + a + _ = _
      ring
    · rw [if_neg h, sumQ_cons, sumQ_cons, ih]
      ring

/-- The grouping computation preserves the total:
sum of group totals = grand total. -/
theorem computeTotals_sum {ρ κ : Type} [DecidableEq κ] (key : ρ → κ)
    (nm : ρ → String) (amt : ρ → ℚ) (recs : List ρ) :
    sumQ (fun g => g.total) (computeTotals key nm amt recs) =
      grandTotal amt recs := by
  suffices h : ∀ (acc : List (GroupTotal κ)),
      sumQ (fun g => g.total)
          (recs.foldl (fun a r => addRec (key r) (nm r) (amt r) a) acc) =
        sumQ (fun g => g.total) acc + sumQ amt recs by
    have := h []
    rw [computeTotals, grandTotal, this]
    show (0 : ℚ) + _ = _
    ring
  induction recs with
  | nil => intro acc; simp [sumQ]
  | cons r rs ih =>
    intro acc
    rw [List.foldl_cons, ih, sumQ_addRec, sumQ_cons]
    ring

/-! ## Lemmas about the descending stable sort -/

/-- Stable insertion produces a permutation of consing. -/
theorem insertDesc_perm {α : Type} (total : α → ℚ) (g : α) (l : List α) :
    (insertDesc total g l).Perm (g :: l) := by
  induction l with
  | nil => exact List.Perm.refl _
  | cons h t ih =>
    rw [insertDesc]
    by_cases hle : total h ≤ total g
    · rw [if_pos hle]
    · rw [if_neg hle]
      exact (ih.cons h).trans (List.Perm.swap g h t)

/-- The sort is a permutation of its input. -/
theorem sortDesc_perm {α : Type} (total : α → ℚ) (l : List α) :
    (sortDesc total l).Perm l := by
  induction l with
  | nil => exact List.Perm.refl _
  | cons g gs ih => exact (insertDesc_perm total g _).trans (ih.cons g)

/-- Membership in a stable insertion. -/
theorem mem_insertDesc {α : Type} (total : α → ℚ) (g x : α) (l : List α) :
    x ∈ insertDesc total g l ↔ x = g ∨ x ∈ l := by
  rw [(insertDesc_perm total g l).mem_iff, List.mem_cons]

/-- Stable insertion into a descending-sorted list stays descending-sorted. -/
theorem pairwise_insertDesc {α : Type} (total : α → ℚ) (g : α)
    {l : List α} (hl : l.Pairwise (fun a b => total b ≤ total a)) :
    (insertDesc total g l).Pairwise (fun a b => total b ≤ total a) := by
  induction l with
  | nil => exact List.pairwise_singleton _ g
  | cons h t ih =>
    rw [List.pairwise_cons] at hl
    rw [insertDesc]
    by_cases hle : total h ≤ total g
    · rw [if_pos hle]
      refine List.Pairwise.cons ?_ (List.Pairwise.cons hl.1 hl.2)
      intro b hb
      rcases List.mem_cons.mp hb with rfl | hb
      · exact hle
      · exact le_trans (hl.1 b hb) hle
    · rw [if_neg hle]
      refine List.Pairwise.cons ?_ (ih hl.2)
      intro b hb
      rcases (mem_insertDesc total g b t).mp hb with rfl | hb
      · exact le_of_lt (not_le.mp hle)
      · exact hl.1 b hb

/-- The sort output is sorted by non-increasing total. -/
theorem pairwise_sortDesc {α : Type} (total : α → ℚ) (l : List α) :
    (sortDesc total l).Pairwise (fun a b => total b ≤ total a) := by
  induction l with
  | nil => exact List.Pairwise.nil
  | cons g gs ih => exact pairwise_insertDesc total g ih

/-- Restricting a stable insertion to one total value: inserting an element
of that value puts it first (everything skipped has a strictly larger
total), inserting any other value leaves the restriction unchanged. -/
theorem filter_insertDesc {α : Type} (total : α → ℚ) (g : α) (l : List α)
    (t : ℚ) :
    (insertDesc total g l).filter (fun x => total x = t) =
      if total g = t then g :: l.filter (fun x => total x = t)
      else l.filter (fun x => total x = t) := by
  induction l with
  | nil =>
    rw [insertDesc, List.filter_cons, List.filter_nil]
    by_cases hg : total g = t
    · simp [hg]
    · simp [hg]
  | cons h s ih =>
    rw [insertDesc]
    by_cases hle : total h ≤ total g
    · rw [if_pos hle, List.filter_cons]
      by_cases hg : total g = t
      · simp [hg]
      · simp [hg]
    · have hlt : total g < total h := not_le.mp hle
      rw [if_neg hle, List.filter_cons, List.filter_cons]
      by_cases hh : total h = t
      · by_cases hg : total g = t
        · rw [hg, hh] at hlt
          exact absurd hlt (lt_irrefl t)
        · simp [hh, hg, ih]
      · simp [hh, ih]

/-- Stability: for each total value, the sort preserves the input's relative
order of the entries having that value. -/
theorem filter_sortDesc {α : Type} (total : α → ℚ) (l : List α) (t : ℚ) :
    (sortDesc total l).filter (fun x => total x = t) =
      l.filter (fun x => total x = t) := by
  induction l with
  | nil => rfl
  | cons g gs ih =>
    rw [sortDesc, filter_insertDesc, List.filter_cons]
    by_cases hg : total g = t
    · simp [hg, ih]
    · simp [hg, ih]

/-- Keys after one reduce step: unchanged when the key is already present,
appended at the end when it is new. -/
theorem addRec_map_key {κ : Type} [DecidableEq κ] (k : κ) (nm : String)
    (a : ℚ) (gs : List (GroupTotal κ)) :
    (addRec k nm a gs).map (fun g => g.key) =
      if gs.any (fun g => g.key = k) then gs.map (fun g => g.key)
      else gs.map (fun g => g.key) ++ [k] := by
  induction gs with
  | nil => simp [addRec]
  | cons g gs ih =>
    rw [addRec]
    by_cases h : g.key = k
    · rw [if_pos h]
      simp [List.any_cons, h]
    · rw [if_neg h, List.map_cons, ih]
      have hcond : (g :: gs).any (fun g => g.key = k) =
          gs.any (fun g => g.key = k) := by
        simp [List.any_cons, h]
      rw [hcond]
      by_cases h2 : gs.any (fun g => g.key = k) = true
      · rw [if_pos h2, if_pos h2, List.map_cons]
      · rw [if_neg h2, if_neg h2, List.map_cons, List.cons_append]

/-- One reduce step keeps the group keys duplicate-free. -/
theorem nodup_key_addRec {κ : Type} [DecidableEq κ] (k : κ) (nm : String)
    (a : ℚ) {gs : List (GroupTotal κ)}
    (h : (gs.map (fun g => g.key)).Nodup) :
    ((addRec k nm a gs).map (fun g => g.key)).Nodup := by
  rw [addRec_map_key]
  by_cases hany : gs.any (fun g => g.key = k) = true
  · rw [if_pos hany]
    exact h
  · rw [if_neg hany]
    have hk : k ∉ gs.map (fun g => g.key) := by
      intro hmem
      obtain ⟨g, hg, he⟩ := List.mem_map.mp hmem
      exact hany (List.any_eq_true.mpr ⟨g, hg, by simp [he]⟩)
    rw [(List.perm_append_singleton k _).nodup_iff, List.nodup_cons]
    exact ⟨hk, h⟩

/-- A reduce step for a different key leaves a key's restriction unchanged. -/
theorem filter_addRec_ne {κ : Type} [DecidableEq κ] (k : κ) (nm : String)
    (a : ℚ) (j : κ) (hkj : ¬k = j) (gs : List (GroupTotal κ)) :
    (addRec k nm a gs).filter (fun g => g.key = j) =
      gs.filter (fun g => g.key = j) := by
  induction gs with
  | nil => simp [addRec, hkj]
  | cons g gs ih =>
    rw [addRec]
    by_cases h : g.key = k
    · rw [if_pos h, List.filter_cons, List.filter_cons]
      have hgj : ¬(g.key = j) := by rw [h]; exact hkj
      simp [hgj]
    · rw [if_neg h, List.filter_cons, List.filter_cons, ih]

/-- A reduce step for a key not yet present pushes a new entry at the end. -/
theorem addRec_of_filter_nil {κ : Type} [DecidableEq κ] (k : κ) (nm : String)
    (a : ℚ) {gs : List (GroupTotal κ)}
    (h : gs.filter (fun g => g.key = k) = []) :
    addRec k nm a gs = gs ++ [⟨k, nm, a⟩] := by
  induction gs with
  | nil => rfl
  | cons g gs ih =>
    rw [List.filter_cons] at h
    by_cases hg : g.key = k
    · simp [hg] at h
    · simp only [hg, decide_False, Bool.false_eq_true, if_false] at h
      rw [addRec, if_neg hg, ih h, List.cons_append]

/-- With duplicate-free keys, a key's restriction is empty or a single entry
carrying that key. -/
theorem filter_key_single {κ : Type} [DecidableEq κ]
    {gs : List (GroupTotal κ)} (hnd : (gs.map (fun g => g.key)).Nodup)
    (k : κ) :
    gs.filter (fun g => g.key = k) = [] ∨
      ∃ g0, gs.filter (fun g => g.key = k) = [g0] ∧ g0.key = k := by
  induction gs with
  | nil => exact Or.inl rfl
  | cons g gs ih =>
    rw [List.map_cons, List.nodup_cons] at hnd
    rw [List.filter_cons]
    by_cases hg : g.key = k
    · have hnil : gs.filter (fun x => x.key = k) = [] := by
        rw [List.filter_eq_nil_iff]
        intro x hx
        simp only [decide_eq_true_eq]
        intro he
        exact hnd.1 (List.mem_map.mpr ⟨x, hx, by rw [he, hg]⟩)
      simp only [hg, decide_True, if_true, hnil]
      exact Or.inr ⟨g, rfl, hg⟩
    · simp only [hg, decide_False, Bool.false_eq_true, if_false]
      exact ih hnd.2

/-- With duplicate-free keys, a reduce step on a present key bumps exactly
that entry. -/
theorem filter_addRec_self {κ : Type} [DecidableEq κ] (k : κ) (nm : String)
    (a : ℚ) {gs : List (GroupTotal κ)} {g0 : GroupTotal κ}
    {rest : List (GroupTotal κ)}
    (h : gs.filter (fun g => g.key = k) = g0 :: rest)
    (hnd : (gs.map (fun g => g.key)).Nodup) :
    (addRec k nm a gs).filter (fun g => g.key = k) =
      [⟨k, g0.name, g0.total + a⟩] := by
  induction gs with
  | nil => exact List.noConfusion h
  | cons g gs ih =>
    rw [List.map_cons, List.nodup_cons] at hnd
    rw [List.filter_cons] at h
    by_cases hg : g.key = k
    · simp only [hg, decide_True, if_true] at h
      have hg0 : g0 = g := (List.cons.injEq _ _ _ _ ▸ h).1.symm
      have hnil : gs.filter (fun x => x.key = k) = [] := by
        rw [List.filter_eq_nil_iff]
        intro x hx
        simp only [decide_eq_true_eq]
        intro he
        exact hnd.1 (List.mem_map.mpr ⟨x, hx, by rw [he, hg]⟩)
      rw [addRec, if_pos hg, List.filter_cons]
      simp only [hg, decide_True, if_true, hnil, hg0]
    · simp only [hg, decide_False, Bool.false_eq_true, if_false] at h
      rw [addRec, if_neg hg, List.filter_cons]
      simp only [hg, decide_False, Bool.false_eq_true, if_false]
      exact ih h hnd.2

/-- Key-restriction of the grouping fold, for an arbitrary starting
accumulator with duplicate-free keys: the key's group accumulates the
starting total (if the key is present) plus the amounts of the matching
records, named after the starting entry or else the first matching record. -/
theorem foldl_addRec_filter {ρ κ : Type} [DecidableEq κ] (key : ρ → κ)
    (nm : ρ → String) (amt : ρ → ℚ) (recs : List ρ) :
    ∀ acc : List (GroupTotal κ), (acc.map (fun g => g.key)).Nodup → ∀ k : κ,
      (recs.foldl (fun a r => addRec (key r) (nm r) (amt r) a) acc).filter
          (fun g => g.key = k) =
        match acc.filter (fun g => g.key = k) with
        | g0 :: _ =>
          [⟨k, g0.name,
            g0.total + sumQ amt (recs.filter (fun r => key r = k))⟩]
        | [] =>
          match recs.find? (fun r => key r = k) with
          | none => []
          | some r0 =>
            [⟨k, nm r0, sumQ amt (recs.filter (fun r => key r = k))⟩] := by
  induction recs with
  | nil =>
    intro acc hnd k
    rw [List.foldl_nil]
    rcases filter_key_single hnd k with hnil | ⟨g0, hg0, hk0⟩
    · rw [hnil]
      rfl
    · rw [hg0]
      have hg0e : g0 = ⟨k, g0.name, g0.total + sumQ amt ([].filter (fun r => key r = k))⟩ := by
        cases g0
        simp only at hk0
        subst hk0
        simp [sumQ]
      exact congrArg (fun x => [x]) (by rw [← hg0e])
  | cons r rs ih =>
    intro acc hnd k
    rw [List.foldl_cons,
      ih (addRec (key r) (nm r) (amt r) acc)
        (nodup_key_addRec (key r) (nm r) (amt r) hnd) k]
    by_cases hrk : key r = k
    · subst hrk
      rcases filter_key_single hnd (key r) with hnil | ⟨g0, hg0, hk0⟩
      · have hstep : (addRec (key r) (nm r) (amt r) acc).filter
            (fun g => g.key = key r) = [⟨key r, nm r, amt r⟩] := by
          rw [addRec_of_filter_nil (key r) (nm r) (amt r) hnil,
            List.filter_append, hnil]
          simp
        rw [hstep, hnil, List.find?_cons_of_pos _ (by simp),
          List.filter_cons_of_pos (by simp), sumQ_cons]
      · rw [filter_addRec_self (key r) (nm r) (amt r) hg0 hnd, hg0,
          List.filter_cons_of_pos (by simp), sumQ_cons]
        simp [add_assoc]
    · rw [filter_addRec_ne (key r) (nm r) (amt r) k hrk acc,
        List.filter_cons_of_neg (by simp [hrk]),
        List.find?_cons_of_neg _ (by simp [hrk])]

/-- Key-restriction of `computeTotals`: the group for a key, when any record
has it, is a single entry named after the first such record and totalling
exactly the matching records' amounts. -/
theorem computeTotals_filter_key {ρ κ : Type} [DecidableEq κ] (key : ρ → κ)
    (nm : ρ → String) (amt : ρ → ℚ) (recs : List ρ) (k : κ) :
    (computeTotals key nm amt recs).filter (fun g => g.key = k) =
      match recs.find? (fun r => key r = k) with
      | none => []
      | some r0 =>
        [⟨k, nm r0, sumQ amt (recs.filter (fun r => key r = k))⟩] := by
  have h := foldl_addRec_filter key nm amt recs [] (by simp) k
  rw [List.filter_nil] at h
  exact h

/-- The group keys of `computeTotals` are duplicate-free. -/
theorem computeTotals_nodup_keys {ρ κ : Type} [DecidableEq κ] (key : ρ → κ)
    (nm : ρ → String) (amt : ρ → ℚ) (recs : List ρ) :
    ((computeTotals key nm amt recs).map (fun g => g.key)).Nodup := by
  rw [computeTotals]
  suffices h : ∀ acc : List (GroupTotal κ), (acc.map (fun g => g.key)).Nodup →
      ((recs.foldl (fun a r => addRec (key r) (nm r) (amt r) a) acc).map
        (fun g => g.key)).Nodup from h [] (by simp)
  induction recs with
  | nil => intro acc hnd; exact hnd
  | cons r rs ih =>
    intro acc hnd
    rw [List.foldl_cons]
    exact ih _ (nodup_key_addRec (key r) (nm r) (amt r) hnd)

/-- A key appears among the groups exactly when some record carries it. -/
theorem computeTotals_mem_key {ρ κ : Type} [DecidableEq κ] (key : ρ → κ)
    (nm : ρ → String) (amt : ρ → ℚ) (recs : List ρ) (k : κ) :
    k ∈ (computeTotals key nm amt recs).map (fun g => g.key) ↔
      ∃ r ∈ recs, key r = k := by
  constructor
  · intro h
    obtain ⟨g, hg, he⟩ := List.mem_map.mp h
    have hfil : g ∈ (computeTotals key nm amt recs).filter
        (fun x => x.key = k) := List.mem_filter.mpr ⟨hg, by simp [he]⟩
    rw [computeTotals_filter_key] at hfil
    cases hfind : recs.find? (fun r => key r = k) with
    | none => rw [hfind] at hfil; exact absurd hfil (List.not_mem_nil g)
    | some r0 =>
      have := List.find?_some hfind
      exact ⟨r0, List.mem_of_find?_eq_some hfind, by simpa using this⟩
  · intro ⟨r, hr, he⟩
    cases hfind : recs.find? (fun x => key x = k) with
    | none =>
      have := List.find?_eq_none.mp hfind r hr
      simp [he] at this
    | some r0 =>
      have hfil := computeTotals_filter_key key nm amt recs k
      rw [hfind] at hfil
      have : (⟨k, nm r0, sumQ amt (recs.filter (fun x => key x = k))⟩ :
          GroupTotal κ) ∈ (computeTotals key nm amt recs).filter
            (fun g => g.key = k) := by
        rw [hfil]
        exact List.mem_singleton.mpr rfl
      exact List.mem_map.mpr
        ⟨_, (List.mem_filter.mp this).1, rfl⟩

/-- Summing a constant zero. -/
theorem sumQ_zero {ρ : Type} (l : List ρ) : sumQ (fun _ => (0 : ℚ)) l = 0 := by
  induction l with
  | nil => rfl
  | cons r rs ih => rw [sumQ_cons, ih]; ring

/-- Summing over a mapped list. -/
theorem sumQ_map {ρ σ : Type} (f : σ → ℚ) (g : ρ → σ) (l : List ρ) :
    sumQ f (l.map g) = sumQ (fun x => f (g x)) l := by
  induction l with
  | nil => rfl
  | cons r rs ih => rw [List.map_cons, sumQ_cons, sumQ_cons, ih]

/-- Summing the per-account sums over a list of account types counts each
record once per occurrence of its tag in the type list. -/
theorem sumQ_count_mul (types : List String) (recs : List ExpRow) :
    sumQ (fun t => sumQ (fun r => r.amount)
        (recs.filter (fun r => r.account_type = t))) types =
      sumQ (fun r => (types.count r.account_type : ℚ) * r.amount) recs := by
  induction types with
  | nil =>
    have h : sumQ (fun r : ExpRow =>
        ((List.count r.account_type ([] : List String) : Nat) : ℚ) * r.amount)
          recs = sumQ (fun _ => (0 : ℚ)) recs :=
      sumQ_congr (by intro r hr; simp)
    rw [h, sumQ_zero]
    rfl
  | cons t ts ih =>
    rw [sumQ_cons, ih,
      sumQ_filter (fun r => r.amount) (fun r => r.account_type = t) recs,
      ← sumQ_add]
    apply sumQ_congr
    intro r hr
    rw [List.count_cons]
    push_cast
    by_cases h : r.account_type = t
    · simp only [h, if_pos, if_true, beq_self_eq_true]
      ring
    · have hbeq : (t == r.account_type) = false := by
        simp only [beq_eq_false_iff_ne, ne_eq]
        exact fun he => h he.symm
      simp only [h, hbeq, Bool.false_eq_true, if_false]
      ring

/-- C5 counterexample: a record whose account type is not in the account-type
list is dropped from the account grouping but counted in the grand total, so
the sum of the account-group totals differs from the grand total. -/
theorem accountTotals_drop_unlisted :
    sumQ (fun a => a.total)
        (accountTotals ["INDIAN", "SBI", "UNION", "CASH"]
          [{ amount := 10, category_id := none, category_name := none,
             account_type := "AXIS" }]) ≠
      grandTotal (fun r => r.amount)
        [({ amount := 10, category_id := none, category_name := none,
            account_type := "AXIS" } : ExpRow)] := by
  norm_num [accountTotals, sortDesc, sumQ, grandTotal, List.filter,
    List.foldl, List.map]

/-- C5 (amended): the find/push groupings (category totals of Monthly and
ExpenseTracking, source totals of IncomeTracking) preserve the sum for every
record list: sum of group totals = grand total.  The account-type grouping
maps over the known account-type list and drops non-positive groups, so its
group totals sum to the grand total provided every record's account type
occurs exactly once in that list and amounts are non-negative. -/
theorem totals_sum_eq_grand_total :
    (∀ recs : List ExpRow,
      sumQ (fun g => g.total) (categoryTotalsM recs) =
        grandTotal (fun r => r.amount) recs) ∧
    (∀ recs : List ExpRow,
      sumQ (fun g => g.total) (categoryTotalsET recs) =
        grandTotal (fun r => r.amount) recs) ∧
    (∀ recs : List IncRow,
      sumQ (fun g => g.total) (sourceTotals recs) =
        grandTotal (fun r => r.amount) recs) ∧
    (∀ (types : List String) (recs : List ExpRow),
      (∀ r ∈ recs, types.count r.account_type = 1) →
      (∀ r ∈ recs, 0 ≤ r.amount) →
      sumQ (fun a => a.total) (accountTotals types recs) =
        grandTotal (fun r => r.amount) recs) := by
  refine ⟨?_, ?_, ?_, ?_⟩
  · intro recs
    rw [categoryTotalsM, sumQ_perm _ (sortDesc_perm _ _), computeTotals_sum]
  · intro recs
    rw [categoryTotalsET, sumQ_perm _ (sortDesc_perm _ _), computeTotals_sum]
  · intro recs
    rw [sourceTotals, sumQ_perm _ (sortDesc_perm _ _), computeTotals_sum]
  · intro types recs h1 h2
    rw [accountTotals, sumQ_perm _ (sortDesc_perm _ _)]
    have hnn : ∀ x ∈ types.map (fun t =>
        AccountTotal.mk t (sumQ (fun r => r.amount)
          (recs.filter (fun r => r.account_type = t)))), 0 ≤ x.total := by
      intro x hx
      obtain ⟨t, ht, rfl⟩ := List.mem_map.mp hx
      exact sumQ_nonneg (fun r hr => h2 r (List.mem_filter.mp hr).1)
    rw [sumQ_filter_pos _ _ hnn, sumQ_map, sumQ_count_mul]
    apply sumQ_congr
    intro r hr
    rw [h1 r hr]
    push_cast
    ring

/-- Witness for totals_sum_eq_grand_total at a concrete account grouping. -/
theorem totals_sum_witness :
    sumQ (fun a => a.total)
        (accountTotals ["CASH"]
          [{ amount := 10, category_id := none, category_name := none,
             account_type := "CASH" }]) =
      grandTotal (fun r => r.amount)
        [({ amount := 10, category_id := none, category_name := none,
            account_type := "CASH" } : ExpRow)] :=
  totals_sum_eq_grand_total.2.2.2 ["CASH"] _
    (by
      intro r hr
      rw [List.mem_singleton] at hr
      subst hr
      decide)
    (by
      intro r hr
      rw [List.mem_singleton] at hr
      subst hr
      norm_num)

/-- C7: the grouping output is sorted by non-increasing total, groups with
equal totals keep the order in which their tag was first seen in the input
(the pre-sort accumulator order), and in particular a group list with totals
[30, 10, 50] is output in order [50, 30, 10]. -/
theorem totals_sorted_stable (recs : List ExpRow) :
    List.Pairwise (fun a b => b.total ≤ a.total) (categoryTotalsM recs) ∧
    (∀ t : ℚ, (categoryTotalsM recs).filter (fun g => g.total = t) =
      (computeTotals (fun r => r.category_id)
          (fun r => r.category_name.getD "Unknown") (fun r => r.amount)
          recs).filter (fun g => g.total = t)) ∧
    (∀ gs : List (GroupTotal Nat),
      gs.map (fun g => g.total) = [30, 10, 50] →
      (sortDesc (fun g => g.total) gs).map (fun g => g.total) =
        [50, 30, 10]) := by
  refine ⟨pairwise_sortDesc _ _, fun t => filter_sortDesc _ _ t, ?_⟩
  intro gs h
  cases gs with
  | nil => exact absurd h (by simp)
  | cons g1 t1 =>
    cases t1 with
    | nil => exact absurd h (by simp)
    | cons g2 t2 =>
      cases t2 with
      | nil => exact absurd h (by simp)
      | cons g3 t3 =>
        cases t3 with
        | cons g4 t4 => exact absurd h (by simp)
        | nil =>
          simp only [List.map_cons, List.map_nil, List.cons.injEq,
            and_true] at h
          obtain ⟨h1, h2, h3⟩ := h
          norm_num [sortDesc, insertDesc, h1, h2, h3]

/-- Witness for totals_sorted_stable: concrete groups with totals
[30, 10, 50] sort to [50, 30, 10]. -/
theorem totals_sorted_witness :
    (([⟨1, "a", 30⟩, ⟨2, "b", 10⟩, ⟨3, "c", 50⟩] :
        List (GroupTotal Nat)).map (fun g => g.total) = [30, 10, 50]) ∧
    (sortDesc (fun g => g.total)
        ([⟨1, "a", 30⟩, ⟨2, "b", 10⟩, ⟨3, "c", 50⟩] :
          List (GroupTotal Nat))).map (fun g => g.total) = [50, 30, 10] := by
  have h : (([⟨1, "a", 30⟩, ⟨2, "b", 10⟩, ⟨3, "c", 50⟩] :
      List (GroupTotal Nat)).map (fun g => g.total) = [30, 10, 50]) := by
    norm_num
  exact ⟨h, (totals_sorted_stable []).2.2 _ h⟩

/-- C10: in the ExpenseTracking category aggregation
(key `exp.category_id || 0`), no record is dropped: the sum of group totals
is the grand total, group keys are duplicate-free, a key appears exactly when
some record maps to it (so each record contributes to exactly one group), and
when records with a null category reference exist (and, as the join
guarantees, such records carry no category name) they form the single
synthetic group with key 0 named "Uncategorized", totalling exactly the
uncategorized spend. -/
theorem uncategorized_single_group (recs : List ExpRow) :
    sumQ (fun g => g.total) (categoryTotalsET recs) =
      grandTotal (fun r => r.amount) recs ∧
    ((categoryTotalsET recs).map (fun g => g.key)).Nodup ∧
    (∀ k : Nat, k ∈ (categoryTotalsET recs).map (fun g => g.key) ↔
      ∃ r ∈ recs, r.category_id.getD 0 = k) ∧
    ((∃ r ∈ recs, r.category_id = none) →
      (∀ r ∈ recs, r.category_id.getD 0 = 0 → r.category_name = none) →
      (categoryTotalsET recs).filter (fun g => g.key = 0) =
        [⟨0, "Uncategorized",
          sumQ (fun r => r.amount)
            (recs.filter (fun r => r.category_id.getD 0 = 0))⟩]) := by
  have hperm : (categoryTotalsET recs).Perm
      (computeTotals (fun r => r.category_id.getD 0)
        (fun r => r.category_name.getD "Uncategorized")
        (fun r => r.amount) recs) := sortDesc_perm _ _
  refine ⟨?_, ?_, ?_, ?_⟩
  · rw [categoryTotalsET, sumQ_perm _ (sortDesc_perm _ _), computeTotals_sum]
  · exact ((hperm.map (fun g => g.key)).nodup_iff).mpr
      (computeTotals_nodup_keys _ _ _ recs)
  · intro k
    rw [(hperm.map (fun g => g.key)).mem_iff]
    exact computeTotals_mem_key _ _ _ recs k
  · intro h0 hname
    obtain ⟨r1, hr1, hid1⟩ := h0
    cases hfind : recs.find? (fun r => r.category_id.getD 0 = 0) with
    | none =>
      have := List.find?_eq_none.mp hfind r1 hr1
      rw [hid1] at this
      simp at this
    | some r0 =>
      have hr0 : r0.category_id.getD 0 = 0 := by
        have := List.find?_some hfind
        simpa using this
      have hn0 : r0.category_name = none :=
        hname r0 (List.mem_of_find?_eq_some hfind) hr0
      have hfil := computeTotals_filter_key (fun r : ExpRow => r.category_id.getD 0)
        (fun r => r.category_name.getD "Uncategorized") (fun r => r.amount)
        recs 0
      rw [hfind] at hfil
      have hsorted := (hperm.filter (fun g => g.key = 0))
      rw [hfil] at hsorted
      rw [List.perm_singleton.mp hsorted, hn0]
      rfl

/-- Witness for uncategorized_single_group: a null-category record of amount
10 next to a categorized record lands in the single key-0 group named
"Uncategorized" with total 10. -/
theorem uncategorized_single_group_witness :
    (∃ r ∈ ([{ amount := 10, category_id := none, category_name := none,
               account_type := "CASH" },
             { amount := 5, category_id := some 2,
               category_name := some "Food",
               account_type := "SBI" }] : List ExpRow),
      r.category_id = none) ∧
    (categoryTotalsET
        [{ amount := 10, category_id := none, category_name := none,
           account_type := "CASH" },
         { amount := 5, category_id := some 2, category_name := some "Food",
           account_type := "SBI" }]).filter (fun g => g.key = 0) =
      [⟨0, "Uncategorized", 10⟩] := by
  have h := (uncategorized_single_group
    [{ amount := 10, category_id := none, category_name := none,
       account_type := "CASH" },
     { amount := 5, category_id := some 2, category_name := some "Food",
       account_type := "SBI" }]).2.2.2
    ⟨_, List.mem_cons_self _ _, rfl⟩
    (by
      intro r hr hk
      rcases List.mem_cons.mp hr with rfl | hr2
      · rfl
      · rcases List.mem_cons.mp hr2 with rfl | hr3
        · exact absurd hk (by decide)
        · exact absurd hr3 (List.not_mem_nil r))
  refine ⟨⟨_, List.mem_cons_self _ _, rfl⟩, ?_⟩
  rw [h]
  norm_num [sumQ, List.filter, List.foldl]

/-- C8: duplicate category/source names are rejected case-insensitively and
before any network call.  For a new name that (after trimming) is non-empty
and within the length cap, if the loaded name list already holds a name equal
ignoring case to the trimmed new name, `addCategory` / `addSource` return the
"already exists" validation error — the `.error` result is produced before
the gateway insert (which only the `.inserted` branch reaches). -/
theorem duplicate_name_rejected (existing : List String) (name : String)
    (h1 : ¬strTrim name = "") (h2 : (strTrim name).length ≤ 50)
    (h3 : ∃ n ∈ existing, strLower n = strLower (strTrim name)) :
    addCategory existing name = .error "Category already exists" ∧
    addSource existing name = .error "Source already exists" := by
  have hany : existing.any
      (fun n => strLower n = strLower (strTrim name)) = true := by
    rw [List.any_eq_true]
    obtain ⟨n, hn, he⟩ := h3
    exact ⟨n, hn, by simp [he]⟩
  have hlen : ¬50 < (strTrim name).length := not_lt.mpr h2
  constructor
  · rw [addCategory]
    simp only [h1, if_neg, not_false_eq_true, hlen, hany, if_pos, if_true]
  · rw [addSource]
    simp only [h1, if_neg, not_false_eq_true, hlen, hany, if_pos, if_true]

/-- Witness for duplicate_name_rejected: adding "Food" when "food" is
already loaded is rejected. -/
theorem duplicate_name_rejected_witness :
    (¬strTrim "Food" = "") ∧
    strLower "food" = strLower (strTrim "Food") ∧
    addCategory ["food"] "Food" = .error "Category already exists" ∧
    addSource ["food"] "Food" = .error "Source already exists" := by
  have h := duplicate_name_rejected ["food"] "Food" (by decide) (by decide)
    ⟨"food", List.mem_singleton.mpr rfl, by decide⟩
  exact ⟨by decide, by decide, h.1, h.2⟩

/-- C9 counterexample: the AddIncome submit handler validates only the
presence of amount and date (`if (!form.amount || !form.date)`), not
positivity; with amount string "0" (numeric value 0) the insert is sent to
the gateway carrying the non-positive amount 0. -/
theorem addincome_sends_nonpositive :
    addIncomeSubmit "0" "2025-01-01" 0 = some 0 ∧
    addExpenseSubmit "0" "2025-01-01" "3" "" 0 = some 0 ∧
    ¬(0 : ℚ) > 0 := by
  refine ⟨?_, ?_, by norm_num⟩
  · rw [addIncomeSubmit, if_neg]
    simp
  · rw [addExpenseSubmit, if_neg (by simp), if_neg (by simp)]

/-- C9 (amended): the modal edit paths of the tracking pages reject a
non-positive amount before any gateway call, but the AddIncome / AddExpense
submit forms check only that the fields are present, so a non-positive
amount whose string is non-empty passes their validation and is sent to the
gateway. -/
theorem edit_paths_reject_nonpositive (source_id item amount date : String)
    (num : ℚ) (h : num ≤ 0) (ha : ¬amount = "") (hd : ¬date = "") :
    incomeHandleSaveSends source_id amount num = false ∧
    expenseHandleSaveSends item amount num = false ∧
    addIncomeSubmit amount date num = some num := by
  refine ⟨?_, ?_, ?_⟩
  · simp [incomeHandleSaveSends, h]
  · simp [expenseHandleSaveSends, h]
  · rw [addIncomeSubmit, if_neg]
    simp [ha, hd]

/-- Witness for edit_paths_reject_nonpositive at amount string "0"
(numeric value 0). -/
theorem edit_paths_reject_witness :
    (0 : ℚ) ≤ 0 ∧
    incomeHandleSaveSends "1" "0" 0 = false ∧
    expenseHandleSaveSends "tea" "0" 0 = false ∧
    addIncomeSubmit "0" "2025-01-01" 0 = some 0 := by
  have h := edit_paths_reject_nonpositive "1" "tea" "0" "2025-01-01" 0
    (le_refl 0) (by decide) (by decide)
  exact ⟨le_refl 0, h.1, h.2.1, h.2.2⟩
